import Mathlib

/-!
Verification development for the o-error library (error tagging / merging /
stack aggregation).  The definitions below are a shallow embedding of the
JavaScript source: the canonical variant is `src/dist/index.js`; the
`tagIfExists` / `_tag` pair comes from the variant in `src/unnamed/part_000`.
JavaScript objects used as info mappings are modelled as insertion-ordered
association lists with unique keys maintained by the assignment operation,
and the platform-captured stack trace strings are passed in explicitly as
parameters (they are opaque environmental inputs).
-/

/-- Primitive JavaScript values that can appear as values inside an info
mapping or as a (non-object) info argument. -/
inductive JsPrim where
  | num (n : Int)
  | str (s : String)
  | boolv (b : Bool)
  | nullv
  | undef
deriving DecidableEq, Repr

/-- A JavaScript object used as an info mapping: insertion-ordered list of
key/value entries (JS objects cannot hold duplicate keys; the assignment
operation below preserves that). -/
abbrev InfoMap := List (String × JsPrim)

/-- A JavaScript value as passed for `info`: either an object (mapping) or a
primitive. -/
inductive JsVal where
  | obj (m : InfoMap)
  | prim (p : JsPrim)
deriving DecidableEq, Repr

/-- JavaScript truthiness of a value (`if (info) ...`). -/
def JsVal.truthy : JsVal → Bool
  | .obj _ => true
  | .prim (.num n) => n ≠ 0
  | .prim (.str s) => s ≠ ""
  | .prim (.boolv b) => b
  | .prim .nullv => false
  | .prim .undef => false

/-- JavaScript `typeof x === 'object'` for a possibly absent field.
Note `typeof null === 'object'` in JavaScript, while absent/undefined and
primitives are not of type object. -/
def typeofObject : Option JsVal → Bool
  | some (.obj _) => true
  | some (.prim .nullv) => true
  | _ => false

/-- Does the object have an own property with the given key? -/
def hasKey (k : String) : InfoMap → Bool
  | [] => false
  | p :: rest => p.1 = k || hasKey k rest

/-- Update the value stored at an existing key, keeping its insertion
position (JS `obj[k] = v` on an existing property). -/
def setKey (k : String) (v : JsPrim) : InfoMap → InfoMap
  | [] => []
  | p :: rest => if p.1 = k then (p.1, v) :: setKey k v rest else p :: setKey k v rest

/-- JS property write `target[k] = v`: overwrite in place if the key exists,
otherwise append at the end (insertion order). -/
def objAssign1 (m : InfoMap) (kv : String × JsPrim) : InfoMap :=
  if hasKey kv.1 m then setKey kv.1 kv.2 m else m ++ [kv]

/-- `Object.assign(target, source)` when the source is an object: copy every
entry of the source, in order, into the target (last write wins). -/
def objAssignObj (target source : InfoMap) : InfoMap :=
  source.foldl objAssign1 target

/-- The own enumerable entries of a JS string (index -> one-character
string), as produced when a string is used as an `Object.assign` source. -/
def strEntries (s : String) : InfoMap :=
  s.toList.enum.map (fun p => (toString p.1, JsPrim.str (String.singleton p.2)))

/-- `Object.assign(target, v)` for an arbitrary value `v`: objects contribute
their entries, strings contribute their characters, every other primitive
(and null/undefined) contributes nothing. -/
def objAssignVal (target : InfoMap) (v : JsVal) : InfoMap :=
  match v with
  | .obj m => objAssignObj target m
  | .prim (.str s) => objAssignObj target (strEntries s)
  | .prim _ => target

/-- `Object.assign(target, v)` where `v` may be absent (undefined). -/
def objAssignJs (target : InfoMap) (v : Option JsVal) : InfoMap :=
  match v with
  | none => target
  | some v => objAssignVal target v

/-- Read the value at a key (JS property read), `none` if absent. -/
def lookupKey (k : String) : InfoMap → Option JsPrim
  | [] => none
  | p :: rest => if p.1 = k then some p.2 else lookupKey k rest

/-- A tag record appended by `OError.tag`: `{ name, message, info }` plus the
platform-captured `stack` string. -/
structure Tag where
  name : String
  message : Option String
  info : Option JsVal
  stack : Option String
deriving DecidableEq, Repr

/-- The non-recursive fields of an error value. -/
structure ErrCore where
  name : String
  message : String
  info : Option JsVal
  stack : Option String
  tags : Option (List Tag)
deriving DecidableEq, Repr

/-- An error value: its own fields plus an optional `cause` error.  The two
constructors encode the optional recursive `cause` field. -/
inductive JsErr where
  | noCause (core : ErrCore)
  | withCauseC (core : ErrCore) (cause : JsErr)
deriving DecidableEq, Repr

def JsErr.core : JsErr → ErrCore
  | .noCause c => c
  | .withCauseC c _ => c

def JsErr.cause : JsErr → Option JsErr
  | .noCause _ => none
  | .withCauseC _ cc => some cc

def JsErr.name (e : JsErr) : String := e.core.name

def JsErr.message (e : JsErr) : String := e.core.message

def JsErr.info (e : JsErr) : Option JsVal := e.core.info

def JsErr.stack (e : JsErr) : Option String := e.core.stack

def JsErr.tags (e : JsErr) : Option (List Tag) := e.core.tags

/-- In-place field write `error.info = v`. -/
def JsErr.setInfo : JsErr → Option JsVal → JsErr
  | .noCause ⟨n, m, _, s, t⟩, i => .noCause ⟨n, m, i, s, t⟩
  | .withCauseC ⟨n, m, _, s, t⟩ cc, i => .withCauseC ⟨n, m, i, s, t⟩ cc

/-- In-place field write `error._oErrorTags = ts`. -/
def JsErr.setTags : JsErr → Option (List Tag) → JsErr
  | .noCause ⟨n, m, i, s, _⟩, t => .noCause ⟨n, m, i, s, t⟩
  | .withCauseC ⟨n, m, i, s, _⟩ cc, t => .withCauseC ⟨n, m, i, s, t⟩ cc

/-- In-place field write `error.cause = c` (or deletion when `none`). -/
def JsErr.setCause : JsErr → Option JsErr → JsErr
  | .noCause c, none => .noCause c
  | .noCause c, some cc => .withCauseC c cc
  | .withCauseC c _, none => .noCause c
  | .withCauseC c _, some cc => .withCauseC c cc

namespace OError

/-- The `OError` constructor (`src/dist/index.js`): stores `info` and `cause`
only when truthy, captures the platform stack trace (passed here as the
`stack` parameter), and leaves the tag list uninitialized. -/
def construct (message : String) (info : JsVal) (cause : Option JsErr)
    (stack : Option String) : JsErr :=
  let core : ErrCore :=
    ⟨"OError", message, if info.truthy then some info else none, stack, none⟩
  match cause with
  | none => JsErr.noCause core
  | some cc => JsErr.withCauseC core cc

/-- `withInfo(info)`: sets `this.info = info` and returns the receiver. -/
def withInfo (e : JsErr) (info : JsVal) : JsErr :=
  e.setInfo (some info)

/-- `withCause(cause)`: sets `this.cause = cause` and returns the receiver. -/
def withCause (e : JsErr) (cause : JsErr) : JsErr :=
  e.setCause (some cause)

/-- The tag record built by `OError.tag` (the `Error.captureStackTrace`
branch): `{ name: 'TaggedError', message, info }` with the captured trace. -/
def mkTag (capturedStack : String) (message : Option String)
    (info : Option JsVal) : Tag :=
  ⟨"TaggedError", message, info, some capturedStack⟩

/-- The module-level singleton `DROPPED_TAGS_ERROR`. -/
def DROPPED_TAGS_ERROR : Tag :=
  ⟨"TaggedError", some "... dropped tags", none, some "TaggedError: ... dropped tags"⟩

/-- JS `arr[1] = v`: overwrite index 1, or extend a one-element array.  (The
empty case cannot arise from `tag`, whose capacity branch requires a length
of at least `maxTags ≥ 1`; JS would create a sparse array there.) -/
def jsSetIdx1 (l : List Tag) (v : Tag) : List Tag :=
  match l with
  | [] => [v]
  | [a] => [a, v]
  | a :: _ :: rest => a :: v :: rest

/-- JS `arr.splice(2, 1)`: remove the element at index 2 when present. -/
def spliceAt2 (l : List Tag) : List Tag :=
  match l with
  | a :: b :: _ :: rest => a :: b :: rest
  | l => l

/-- The capacity branch of `OError.tag`: once the tag list has reached
`maxTags`, either install the dropped-tags sentinel in slot 1 (first
overflow) or remove the oldest tag after the sentinel (later overflows). -/
def capacityAdjust (maxTags : Nat) (l : List Tag) : List Tag :=
  if maxTags ≤ l.length then
    if l[1]? = some DROPPED_TAGS_ERROR then spliceAt2 l
    else jsSetIdx1 l DROPPED_TAGS_ERROR
  else l

/-- `OError.tag(error, message, info)` from `src/dist/index.js`: materialize
the tag list, run the capacity branch, push the new tag, return the (mutated)
error.  `maxTags` is the process-wide configuration (default 100) and
`capturedStack` the platform-captured trace for this tagging call. -/
def tag (maxTags : Nat) (capturedStack : String) (e : JsErr)
    (message : Option String) (info : Option JsVal) : JsErr :=
  let tags := (JsErr.tags e).getD []
  let t := mkTag capturedStack message info
  JsErr.setTags e (some (capacityAdjust maxTags tags ++ [t]))

/-- `OError._tag` from `src/unnamed/part_000`: append one tag, no capacity
policy in that variant.  The `caller` argument of the source only controls
which frames the platform elides from the captured trace, which is already
abstracted by `capturedStack`. -/
def tagV0 (capturedStack : String) (e : JsErr)
    (message : Option String) (info : Option JsVal) : JsErr :=
  let tags := (JsErr.tags e).getD []
  JsErr.setTags e (some (tags ++ [mkTag capturedStack message info]))

/-- `OError.tagIfExists` from `src/unnamed/part_000`: `if (!error) return
error`, otherwise delegate to `_tag` exactly as `tag` does. -/
def tagIfExists (capturedStack : String) (error : Option JsErr)
    (message : Option String) (info : Option JsVal) : Option JsErr :=
  match error with
  | none => error
  | some e => some (tagV0 capturedStack e message info)

/-- `oError.stack || '(no stack)'`: the placeholder is used when the stack
field is absent or the empty string (both falsy). -/
def stackOrPlaceholder : Option String → String
  | none => "(no stack)"
  | some s => if s = "" then "(no stack)" else s

/-- JS `Array.prototype.join(sep)` (on arrays of strings; an absent tag stack
is rendered as the empty string by `join`). -/
def joinSep (sep : String) : List String → String
  | [] => ""
  | [s] => s
  | s :: rest => s ++ sep ++ joinSep sep rest

/-- Concatenation of a list of strings. -/
def concatStrings : List String → String
  | [] => ""
  | s :: rest => s ++ concatStrings rest

/-- The `indent` helper: `string.replace(/^/gm, '    ')`, i.e. insert four
spaces at the start of every line. -/
def indent (s : String) : String :=
  String.intercalate "\n" ((s.splitOn "\n").map (fun line => "    " ++ line))

/-- The tags segment of `getFullStack`: when the tag array exists and is
nonempty, append one line per tag stack. -/
def tagStackPart (base : String) (tags : Option (List Tag)) : String :=
  match tags with
  | none => base
  | some [] => base
  | some ts => base ++ "\n" ++ joinSep "\n" (ts.map (fun t => t.stack.getD ""))

/-- Merge `error.info` into the accumulator when `typeof error.info ===
'object'` (`Object.assign(info, oError.info)`). -/
def mergeOwnInfo (acc : InfoMap) (info : Option JsVal) : InfoMap :=
  if typeofObject info then objAssignJs acc info else acc

/-- Merge each tag's `info` in append order (`Object.assign(info, tag.info)`,
with no type guard in the source). -/
def mergeTagInfos (acc : InfoMap) (tags : Option (List Tag)) : InfoMap :=
  match tags with
  | none => acc
  | some ts => ts.foldl (fun a t => objAssignJs a t.info) acc

/-- Body of `OError.getFullInfo` for a non-null error (`src/dist/index.js`):
start from `{}`, merge the cause's full info, then the error's own info when
it is object-typed, then every tag's info in order. -/
def getFullInfoE : JsErr → InfoMap
  | .noCause core => mergeTagInfos (mergeOwnInfo [] core.info) core.tags
  | .withCauseC core cc =>
      mergeTagInfos (mergeOwnInfo (objAssignObj [] (getFullInfoE cc)) core.info) core.tags

/-- `OError.getFullInfo(error)`: `{}` for a null/absent error. -/
def getFullInfo : Option JsErr → InfoMap
  | none => []
  | some e => getFullInfoE e

/-- Body of `OError.getFullStack` for a non-null error (`src/dist/index.js`):
the error's own stack (or placeholder), the tag stacks one per line, then
`caused by:` and the cause's indented full stack when that is truthy. -/
def getFullStackE : JsErr → String
  | .noCause core => tagStackPart (stackOrPlaceholder core.stack) core.tags
  | .withCauseC core cc =>
      let stack := tagStackPart (stackOrPlaceholder core.stack) core.tags
      let causeStack := getFullStackE cc
      if causeStack = "" then stack
      else stack ++ "\ncaused by:\n" ++ indent causeStack

/-- `OError.getFullStack(error)`: `''` for a null/absent error. -/
def getFullStack : Option JsErr → String
  | none => ""
  | some e => getFullStackE e

end OError

section BasicLemmas

@[simp] theorem JsErr.tags_setTags (e : JsErr) (t : Option (List Tag)) :
    JsErr.tags (JsErr.setTags e t) = t := by
  cases e with
  | noCause c => cases c; rfl
  | withCauseC c cc => cases c; rfl

@[simp] theorem JsErr.name_setTags (e : JsErr) (t : Option (List Tag)) :
    JsErr.name (JsErr.setTags e t) = JsErr.name e := by
  cases e with
  | noCause c => cases c; rfl
  | withCauseC c cc => cases c; rfl

@[simp] theorem JsErr.message_setTags (e : JsErr) (t : Option (List Tag)) :
    JsErr.message (JsErr.setTags e t) = JsErr.message e := by
  cases e with
  | noCause c => cases c; rfl
  | withCauseC c cc => cases c; rfl

@[simp] theorem JsErr.info_setTags (e : JsErr) (t : Option (List Tag)) :
    JsErr.info (JsErr.setTags e t) = JsErr.info e := by
  cases e with
  | noCause c => cases c; rfl
  | withCauseC c cc => cases c; rfl

@[simp] theorem JsErr.stack_setTags (e : JsErr) (t : Option (List Tag)) :
    JsErr.stack (JsErr.setTags e t) = JsErr.stack e := by
  cases e with
  | noCause c => cases c; rfl
  | withCauseC c cc => cases c; rfl

@[simp] theorem JsErr.cause_setTags (e : JsErr) (t : Option (List Tag)) :
    JsErr.cause (JsErr.setTags e t) = JsErr.cause e := by
  cases e with
  | noCause c => cases c; rfl
  | withCauseC c cc => cases c; rfl

end BasicLemmas

/-- The concrete capacity scenario of the spec: a fresh error tagged over and
over with the default maximum of 100 tags.  The first tagging call carries a
distinguished message so the "first tag" is recognizable. -/
def tagScenarioMsg (k : Nat) : Option String :=
  some (if k = 1 then "first tag" else "another tag")

/-- Tag a fresh error `n` times with `maxTags = 100`. -/
def tagTimes : Nat → JsErr
  | 0 => OError.construct "base" (JsVal.prim JsPrim.undef) none (some "base stack")
  | n + 1 => OError.tag 100 "tag stack" (tagTimes n) (tagScenarioMsg (n + 1)) none

/-- The tag list after `n` tagging calls in the capacity scenario. -/
def scenarioTags (n : Nat) : List Tag := (JsErr.tags (tagTimes n)).getD []

/-- Reachability invariant of the capacity branch with `maxTags = 100`: the
tag list either has not yet exceeded 100 entries, or holds exactly 101
entries with the dropped-tags sentinel in slot 1. -/
def CapInv (l : List Tag) : Prop :=
  l.length ≤ 100 ∨ (l.length = 101 ∧ l[1]? = some OError.DROPPED_TAGS_ERROR)

theorem capInv_step (l : List Tag) (t : Tag) (h : CapInv l) :
    CapInv (OError.capacityAdjust 100 l ++ [t]) := by
  by_cases h100 : 100 ≤ l.length
  · rcases l with _ | ⟨a, _ | ⟨b, rest⟩⟩
    · simp at h100
    · simp at h100
    · by_cases hD : (a :: b :: rest)[1]? = some OError.DROPPED_TAGS_ERROR
      · have hb : b = OError.DROPPED_TAGS_ERROR := by simpa using hD
        rcases rest with _ | ⟨c, rest'⟩
        · simp at h100
        · have hadj : OError.capacityAdjust 100 (a :: b :: c :: rest') = a :: b :: rest' := by
            unfold OError.capacityAdjust
            rw [if_pos h100, if_pos hD]
            rfl
          rw [hadj]
          rcases h with hlen | ⟨hlen, _⟩
          · left
            simp at hlen ⊢
            omega
          · right
            refine ⟨?_, ?_⟩
            · simp at hlen ⊢
              omega
            · simp [hb]
      · have hlen : (a :: b :: rest).length ≤ 100 := by
          rcases h with hlen | ⟨_, h1⟩
          · exact hlen
          · exact absurd h1 hD
        have hadj : OError.capacityAdjust 100 (a :: b :: rest) =
            a :: OError.DROPPED_TAGS_ERROR :: rest := by
          unfold OError.capacityAdjust
          rw [if_pos h100, if_neg hD]
          rfl
        rw [hadj]
        right
        refine ⟨?_, ?_⟩
        · simp at hlen h100 ⊢
          omega
        · simp
  · have hadj : OError.capacityAdjust 100 l = l := by
      unfold OError.capacityAdjust
      rw [if_neg h100]
    rw [hadj]
    left
    simp at h100 ⊢
    omega

theorem scenarioTags_succ (n : Nat) :
    scenarioTags (n + 1) =
      OError.capacityAdjust 100 (scenarioTags n) ++
        [OError.mkTag "tag stack" (tagScenarioMsg (n + 1)) none] := by
  simp [scenarioTags, tagTimes, OError.tag]

theorem scenarioTags_capInv (n : Nat) : CapInv (scenarioTags n) := by
  induction n with
  | zero =>
      left
      simp [scenarioTags, tagTimes, OError.construct, JsErr.tags, JsErr.core]
  | succ n ih =>
      rw [scenarioTags_succ]
      exact capInv_step _ _ ih

set_option maxRecDepth 400000

/-- Claim C1 (counterexample): with the default maximum of 100 tags, tagging
an error 150 times yields a tag sequence of length 101, so the claimed bound
of 100 fails. -/
theorem claimC1_counterexample : ¬ ((scenarioTags 150).length ≤ 100) := by decide

/-- Claim C1 (amended): with `maxTags = 100`, the tag sequence never exceeds
101 entries (`maxTags + 1`); after 150 tagging calls it has exactly 101
entries, its first entry is the original first tag, its second entry is the
dropped-tags sentinel, the sentinel occurs exactly once, and the most recent
tag was appended at the end (the oldest tag after the sentinel having been
removed instead of the new tag being discarded). -/
theorem claimC1_amended :
    (∀ n, (scenarioTags n).length ≤ 101) ∧
    (scenarioTags 150).length = 101 ∧
    (scenarioTags 150)[0]? = some (OError.mkTag "tag stack" (some "first tag") none) ∧
    (scenarioTags 150)[1]? = some OError.DROPPED_TAGS_ERROR ∧
    (scenarioTags 150).count OError.DROPPED_TAGS_ERROR = 1 ∧
    (scenarioTags 150).getLast? = some (OError.mkTag "tag stack" (some "another tag") none) := by
  refine ⟨?_, by decide, by decide, by decide, by decide, by decide⟩
  intro n
  rcases scenarioTags_capInv n with h | ⟨h, _⟩ <;> omega

section SetterLemmas

@[simp] theorem JsErr.info_setInfo (e : JsErr) (v : Option JsVal) :
    JsErr.info (JsErr.setInfo e v) = v := by
  cases e with
  | noCause c => cases c; rfl
  | withCauseC c cc => cases c; rfl

@[simp] theorem JsErr.cause_setCause (e : JsErr) (c : Option JsErr) :
    JsErr.cause (JsErr.setCause e c) = c := by
  cases e with
  | noCause co => cases co; cases c <;> rfl
  | withCauseC co cc => cases co; cases c <;> rfl

end SetterLemmas

/-- Claim C5: `tag` is an identity-returning mutator that never fails — it
returns the receiver itself, with every field other than the tag sequence
unchanged; exactly one new tag record (carrying the given message, info and
captured stack) is appended at the end of the sequence; and below the
configured maximum the sequence is simply the old sequence plus the new tag.
The function is total on all well-formed inputs. -/
theorem claimC5 (M : Nat) (s : String) (e : JsErr) (m : Option String) (i : Option JsVal) :
    JsErr.name (OError.tag M s e m i) = JsErr.name e ∧
    JsErr.message (OError.tag M s e m i) = JsErr.message e ∧
    JsErr.info (OError.tag M s e m i) = JsErr.info e ∧
    JsErr.stack (OError.tag M s e m i) = JsErr.stack e ∧
    JsErr.cause (OError.tag M s e m i) = JsErr.cause e ∧
    ((JsErr.tags (OError.tag M s e m i)).getD []).getLast? = some (OError.mkTag s m i) ∧
    (((JsErr.tags e).getD []).length < M →
      JsErr.tags (OError.tag M s e m i) =
        some ((JsErr.tags e).getD [] ++ [OError.mkTag s m i])) := by
  refine ⟨by simp [OError.tag], by simp [OError.tag], by simp [OError.tag],
    by simp [OError.tag], by simp [OError.tag], ?_, ?_⟩
  · simp [OError.tag]
  · intro hlt
    have hadj : OError.capacityAdjust M ((JsErr.tags e).getD []) = (JsErr.tags e).getD [] := by
      unfold OError.capacityAdjust
      rw [if_neg (by omega)]
    simp [OError.tag, hadj]

/-- A concrete plain error used to witness the tagging claims. -/
def witnessErrC5 : JsErr := JsErr.noCause ⟨"Error", "w", none, some "ws", none⟩

/-- Witness for claim C5: tagging a fresh error below capacity appends
exactly the new tag. -/
theorem claimC5_witness :
    JsErr.tags (OError.tag 100 "ts" witnessErrC5 (some "m") none) =
      some [OError.mkTag "ts" (some "m") none] := by
  have h := (claimC5 100 "ts" witnessErrC5 (some "m") none).2.2.2.2.2.2 (by decide)
  simpa using h

/-- Claim C6: `withInfo` and `withCause` are identity-preserving fluent
setters — `withInfo` stores exactly the given value in the `info` field and
changes nothing else; `withCause` stores the given cause (overwriting any
existing one, last write wins) and changes nothing else. -/
theorem claimC6 (e : JsErr) (v : JsVal) (c c2 : JsErr) :
    JsErr.info (OError.withInfo e v) = some v ∧
    JsErr.name (OError.withInfo e v) = JsErr.name e ∧
    JsErr.message (OError.withInfo e v) = JsErr.message e ∧
    JsErr.stack (OError.withInfo e v) = JsErr.stack e ∧
    JsErr.tags (OError.withInfo e v) = JsErr.tags e ∧
    JsErr.cause (OError.withInfo e v) = JsErr.cause e ∧
    JsErr.cause (OError.withCause e c) = some c ∧
    JsErr.name (OError.withCause e c) = JsErr.name e ∧
    JsErr.message (OError.withCause e c) = JsErr.message e ∧
    JsErr.info (OError.withCause e c) = JsErr.info e ∧
    JsErr.stack (OError.withCause e c) = JsErr.stack e ∧
    JsErr.tags (OError.withCause e c) = JsErr.tags e ∧
    JsErr.cause (OError.withCause (OError.withCause e c) c2) = some c2 := by
  cases e with
  | noCause core =>
      cases core
      exact ⟨rfl, rfl, rfl, rfl, rfl, rfl, rfl, rfl, rfl, rfl, rfl, rfl, rfl⟩
  | withCauseC core cc =>
      cases core
      exact ⟨rfl, rfl, rfl, rfl, rfl, rfl, rfl, rfl, rfl, rfl, rfl, rfl, rfl⟩

/-- Claim C4: the defensive queries — `getFullInfo` of a null/absent error is
the empty mapping, `getFullStack` of a null/absent error is the empty string,
`tagIfExists` of a null/absent error returns its argument unchanged without
annotating anything, and on a present error `tagIfExists` behaves identically
to the tagging operation of its variant (`_tag` in `src/unnamed/part_000`,
to which `tag` there also delegates). -/
theorem claimC4 :
    OError.getFullInfo none = [] ∧
    OError.getFullStack none = "" ∧
    (∀ (s : String) (m : Option String) (i : Option JsVal),
      OError.tagIfExists s none m i = none) ∧
    (∀ (s : String) (e : JsErr) (m : Option String) (i : Option JsVal),
      OError.tagIfExists s (some e) m i = some (OError.tagV0 s e m i)) :=
  ⟨rfl, rfl, fun _ _ _ => rfl, fun _ _ _ _ => rfl⟩

/-- Claim C10: the constructor treats falsy arguments as absent — the `info`
field is set exactly when the `info` argument is truthy (so null, undefined,
`0`, `''` and `false` leave it absent), the `cause` field holds exactly the
optional cause passed, and `getFullInfo` of an untagged, causeless error
constructed with falsy info is the empty mapping. -/
theorem claimC10 (m : String) (v : JsVal) (c : Option JsErr) (st : Option String) :
    ((OError.construct m v c st).info = none ↔ v.truthy = false) ∧
    (v.truthy = true → (OError.construct m v c st).info = some v) ∧
    (OError.construct m v c st).cause = c ∧
    (v.truthy = false → OError.getFullInfo (some (OError.construct m v none st)) = []) := by
  refine ⟨?_, ?_, ?_, ?_⟩
  · by_cases h : v.truthy <;>
      cases c <;>
        simp [OError.construct, JsErr.info, JsErr.core, h]
  · intro h
    cases c <;> simp [OError.construct, JsErr.info, JsErr.core, h]
  · cases c <;> simp [OError.construct, JsErr.cause]
  · intro h
    simp [OError.construct, OError.getFullInfo, OError.getFullInfoE, h,
      OError.mergeTagInfos, OError.mergeOwnInfo, typeofObject]

/-- Witness for claim C10: constructing with `null` info leaves the field
absent and the merged info empty. -/
theorem claimC10_witness :
    (OError.construct "w" (JsVal.prim JsPrim.nullv) none (some "s")).info = none ∧
    OError.getFullInfo (some (OError.construct "w" (JsVal.prim JsPrim.nullv) none (some "s"))) = [] := by
  refine ⟨?_, (claimC10 "w" (JsVal.prim JsPrim.nullv) none (some "s")).2.2.2 (by decide)⟩
  exact ((claimC10 "w" (JsVal.prim JsPrim.nullv) none (some "s")).1).mpr (by decide)

section InfoMergeLemmas

theorem hasKey_append (k : String) (l1 l2 : InfoMap) :
    hasKey k (l1 ++ l2) = (hasKey k l1 || hasKey k l2) := by
  induction l1 with
  | nil => simp [hasKey]
  | cons p rest ih => simp [hasKey, ih, Bool.or_assoc]

theorem lookupKey_setKey_self (l : InfoMap) (k : String) (v : JsPrim)
    (h : hasKey k l = true) : lookupKey k (setKey k v l) = some v := by
  induction l with
  | nil => simp [hasKey] at h
  | cons p rest ih =>
      by_cases hp : p.1 = k
      · simp [setKey, hp, lookupKey]
      · simp [hasKey, hp] at h
        simp [setKey, hp, lookupKey, ih h]

theorem lookupKey_append_right (l1 l2 : InfoMap) (k : String)
    (h : hasKey k l1 = false) : lookupKey k (l1 ++ l2) = lookupKey k l2 := by
  induction l1 with
  | nil => rfl
  | cons p rest ih =>
      simp [hasKey] at h
      simp [lookupKey, h.1, ih h.2]

theorem lookupKey_objAssign1_self (acc : InfoMap) (k : String) (v : JsPrim) :
    lookupKey k (objAssign1 acc (k, v)) = some v := by
  unfold objAssign1
  cases h : hasKey k acc with
  | true =>
      simp only [h, if_true]
      exact lookupKey_setKey_self acc k v h
  | false =>
      simp only [h, Bool.false_eq_true, if_false]
      rw [lookupKey_append_right acc [(k, v)] k h]
      simp [lookupKey]

theorem objAssignObj_fresh (m : InfoMap) : ∀ acc : InfoMap,
    (∀ p ∈ m, hasKey p.1 acc = false) → (m.map Prod.fst).Nodup →
    objAssignObj acc m = acc ++ m := by
  induction m with
  | nil => intro acc _ _; simp [objAssignObj]
  | cons p rest ih =>
      intro acc hfresh hnodup
      have hp : hasKey p.1 acc = false := hfresh p (by simp)
      have h1 : objAssign1 acc p = acc ++ [p] := by
        unfold objAssign1
        simp only [hp, Bool.false_eq_true, if_false]
      have hstep : objAssignObj acc (p :: rest) = objAssignObj (acc ++ [p]) rest := by
        simp [objAssignObj, h1]
      rw [hstep]
      rw [List.map_cons, List.nodup_cons] at hnodup
      have hnotin : p.1 ∉ rest.map Prod.fst := hnodup.1
      have hfresh' : ∀ q ∈ rest, hasKey q.1 (acc ++ [p]) = false := by
        intro q hq
        rw [hasKey_append]
        have h2 : hasKey q.1 acc = false := hfresh q (by simp [hq])
        have h3 : ¬ (p.1 = q.1) := by
          intro hpq
          exact hnotin (by simpa [hpq] using List.mem_map_of_mem Prod.fst hq)
        simp [h2, hasKey, h3]
      have hnodup' : (rest.map Prod.fst).Nodup := hnodup.2
      rw [ih (acc ++ [p]) hfresh' hnodup']
      simp

theorem objAssignObj_nil_nodup (m : InfoMap) (h : (m.map Prod.fst).Nodup) :
    objAssignObj [] m = m := by
  simpa using objAssignObj_fresh m [] (by intro p _; simp [hasKey]) h

end InfoMergeLemmas

/-- The first example of claim C2: an error with info `{a:1}`. -/
def exErrA : JsErr := OError.construct "e" (JsVal.obj [("a", JsPrim.num 1)]) none (some "es")

/-- The first example after `tag(E,'m1',{a:2})` and `tag(E,'m2',{a:3})`. -/
def exErrA2 : JsErr :=
  OError.tag 100 "s2"
    (OError.tag 100 "s1" exErrA (some "m1") (some (JsVal.obj [("a", JsPrim.num 2)])))
    (some "m2") (some (JsVal.obj [("a", JsPrim.num 3)]))

/-- The second example of claim C2: the cause with info `{x:1}`. -/
def exErrCause : JsErr :=
  OError.construct "c" (JsVal.obj [("x", JsPrim.num 1)]) none (some "cs")

/-- The second example of claim C2: `Construct('e',{x:2},cause)`. -/
def exErrB : JsErr :=
  OError.construct "e" (JsVal.obj [("x", JsPrim.num 2)]) (some exErrCause) (some "es")

/-- Claim C2: `getFullInfo` merges cause info, then own info, then tag infos
in append order with last write wins.  In general the info of the most
recently appended tag overrides every earlier source for the keys it defines,
and on the spec's concrete examples: info `{a:1}` tagged with `{a:2}` then
`{a:3}` yields `{a:3}`, and an error with info `{x:2}` over a cause with info
`{x:1}` yields `{x:2}`. -/
theorem claimC2 :
    (∀ (M : Nat) (s : String) (e : JsErr) (m : Option String) (k : String) (v : JsPrim),
      lookupKey k (OError.getFullInfo
        (some (OError.tag M s e m (some (JsVal.obj [(k, v)]))))) = some v) ∧
    OError.getFullInfo (some exErrA2) = [("a", JsPrim.num 3)] ∧
    OError.getFullInfo (some exErrB) = [("x", JsPrim.num 2)] := by
  refine ⟨?_, by decide, by decide⟩
  intro M s e m k v
  cases e with
  | noCause core =>
      cases core
      simp [OError.tag, OError.getFullInfo, OError.getFullInfoE, JsErr.setTags,
        JsErr.tags, JsErr.core, OError.mergeTagInfos, List.foldl_append,
        objAssignJs, objAssignVal, objAssignObj, OError.mkTag,
        lookupKey_objAssign1_self]
  | withCauseC core cc =>
      cases core
      simp [OError.tag, OError.getFullInfo, OError.getFullInfoE, JsErr.setTags,
        JsErr.tags, JsErr.core, OError.mergeTagInfos, List.foldl_append,
        objAssignJs, objAssignVal, objAssignObj, OError.mkTag,
        lookupKey_objAssign1_self]

/-- Claim C7: for an error that was never tagged and has no cause, the
aggregation queries are the identity — `getFullInfo` returns the error's own
info mapping (or the empty mapping when info is absent) and `getFullStack`
returns the error's own stack (or the placeholder when the stack is absent
or empty, both being falsy in the source). -/
theorem claimC7 (e : JsErr) (hc : JsErr.cause e = none)
    (ht : JsErr.tags e = none ∨ JsErr.tags e = some []) :
    (JsErr.info e = none → OError.getFullInfo (some e) = []) ∧
    (∀ m, JsErr.info e = some (JsVal.obj m) → (m.map Prod.fst).Nodup →
      OError.getFullInfo (some e) = m) ∧
    (∀ s, JsErr.stack e = some s → s ≠ "" → OError.getFullStack (some e) = s) ∧
    ((JsErr.stack e = none ∨ JsErr.stack e = some "") →
      OError.getFullStack (some e) = "(no stack)") := by
  cases e with
  | withCauseC core cc => simp [JsErr.cause] at hc
  | noCause core =>
      cases core with
      | mk n ms i st t =>
          simp only [JsErr.info, JsErr.stack, JsErr.tags, JsErr.core] at ht ⊢
          refine ⟨?_, ?_, ?_, ?_⟩
          · intro hi
            subst hi
            rcases ht with ht | ht <;> subst ht <;>
              simp [OError.getFullInfo, OError.getFullInfoE, OError.mergeTagInfos,
                OError.mergeOwnInfo, typeofObject]
          · intro mm hi hnodup
            subst hi
            rcases ht with ht | ht <;> subst ht <;>
              simp [OError.getFullInfo, OError.getFullInfoE, OError.mergeTagInfos,
                OError.mergeOwnInfo, typeofObject, objAssignJs,
                objAssignVal, objAssignObj_nil_nodup mm hnodup]
          · intro s hs hne
            subst hs
            rcases ht with ht | ht <;> subst ht <;>
              simp [OError.getFullStack, OError.getFullStackE, OError.tagStackPart,
                OError.stackOrPlaceholder, hne]
          · intro hs
            rcases hs with hs | hs <;> subst hs <;>
              rcases ht with ht | ht <;> subst ht <;>
                simp [OError.getFullStack, OError.getFullStackE, OError.tagStackPart,
                  OError.stackOrPlaceholder]

/-- A concrete untagged, causeless error used to witness claim C7. -/
def witnessErrC7 : JsErr :=
  JsErr.noCause ⟨"OError", "m", some (JsVal.obj [("k", JsPrim.num 1)]), some "st", none⟩

/-- Witness for claim C7 at a concrete untagged error. -/
theorem claimC7_witness :
    OError.getFullInfo (some witnessErrC7) = [("k", JsPrim.num 1)] ∧
    OError.getFullStack (some witnessErrC7) = "st" :=
  ⟨(claimC7 witnessErrC7 rfl (Or.inl rfl)).2.1 [("k", JsPrim.num 1)] rfl (by decide),
   (claimC7 witnessErrC7 rfl (Or.inl rfl)).2.2.1 "st" rfl (by decide)⟩

section StackLemmas

theorem string_append_ne_empty_left (a b : String) (ha : a ≠ "") : a ++ b ≠ "" := by
  intro h
  have hlen := congrArg String.length h
  simp [String.length_append] at hlen
  have h0 : a.length = 0 := by omega
  cases a with
  | mk data =>
      cases data with
      | nil => exact ha rfl
      | cons x l => simp [String.length] at h0

theorem joinSep_cons_cons (s0 s1 : String) (rest : List String) :
    OError.joinSep "\n" (s0 :: s1 :: rest) = s0 ++ "\n" ++ OError.joinSep "\n" (s1 :: rest) := rfl

theorem joinSep_concat (ss : List String) : ∀ s0 : String,
    "\n" ++ OError.joinSep "\n" (s0 :: ss) =
      OError.concatStrings ((s0 :: ss).map (fun s => "\n" ++ s)) := by
  induction ss with
  | nil =>
      intro s0
      simp [OError.joinSep, OError.concatStrings, String.append_empty]
  | cons s1 rest ih =>
      intro s0
      rw [joinSep_cons_cons, List.map_cons]
      show "\n" ++ (s0 ++ "\n" ++ OError.joinSep "\n" (s1 :: rest)) =
        ("\n" ++ s0) ++ OError.concatStrings ((s1 :: rest).map (fun s => "\n" ++ s))
      rw [← ih s1, String.append_assoc, String.append_assoc]

theorem tagStackPart_eq (base : String) (ts : Option (List Tag)) :
    OError.tagStackPart base ts =
      base ++ OError.concatStrings ((ts.getD []).map (fun t => "\n" ++ t.stack.getD "")) := by
  match ts with
  | none => simp [OError.tagStackPart, OError.concatStrings, String.append_empty]
  | some [] => simp [OError.tagStackPart, OError.concatStrings, String.append_empty]
  | some (t :: rest) =>
      show base ++ "\n" ++
          OError.joinSep "\n" ((t :: rest).map (fun t => t.stack.getD "")) = _
      rw [List.map_cons, String.append_assoc, joinSep_concat]
      simp only [List.map_map, Option.getD_some, List.map_cons]
      rfl

end StackLemmas

theorem stackOrPlaceholder_ne_empty (st : Option String) :
    OError.stackOrPlaceholder st ≠ "" := by
  match st with
  | none => decide
  | some s =>
      by_cases h : s = ""
      · simp only [OError.stackOrPlaceholder, h, if_pos]
        decide
      · simp [OError.stackOrPlaceholder, h]

theorem tagStackPart_ne_empty (base : String) (ts : Option (List Tag))
    (hb : base ≠ "") : OError.tagStackPart base ts ≠ "" := by
  rw [tagStackPart_eq]
  exact string_append_ne_empty_left _ _ hb

theorem getFullStackE_ne_empty (e : JsErr) : OError.getFullStackE e ≠ "" := by
  cases e with
  | noCause core =>
      exact tagStackPart_ne_empty _ _ (stackOrPlaceholder_ne_empty core.stack)
  | withCauseC core cc =>
      simp only [OError.getFullStackE]
      by_cases h : OError.getFullStackE cc = ""
      · rw [if_pos h]
        exact tagStackPart_ne_empty _ _ (stackOrPlaceholder_ne_empty core.stack)
      · rw [if_neg h]
        exact string_append_ne_empty_left _ _
          (string_append_ne_empty_left _ _
            (tagStackPart_ne_empty _ _ (stackOrPlaceholder_ne_empty core.stack)))

/-- Modelled after the specification text for `getFullStack` (spec §4.1): the
error's own stack or the placeholder, followed by one line per tag stack in
append order. -/
def specStackBase (core : ErrCore) : String :=
  OError.stackOrPlaceholder core.stack ++
    OError.concatStrings ((core.tags.getD []).map (fun t => "\n" ++ t.stack.getD ""))

/-- Modelled after the specification text for `getFullStack` (spec §4.1): the
base part, then — whenever a cause is present — a literal causation separator
line followed by the cause's recursively computed full stack with every line
indented by the fixed four-space unit. -/
def getFullStackSpecE : JsErr → String
  | .noCause core => specStackBase core
  | .withCauseC core cc =>
      specStackBase core ++ "\ncaused by:\n" ++ OError.indent (getFullStackSpecE cc)

/-- The specification model of `getFullStack`, empty on a null/absent error. -/
def getFullStackSpec : Option JsErr → String
  | none => ""
  | some e => getFullStackSpecE e

/-- Claim C3: for every error, `getFullStack` has exactly the structure the
spec describes — the error's own stack (or the `(no stack)` placeholder when
the stack is absent/falsy), followed by the stack of every tag in append
order one per line, then, when a cause is present, the literal `caused by:`
separator line followed by the cause's recursively computed full stack with
every line indented by the fixed four-space unit. -/
theorem claimC3 (oe : Option JsErr) : OError.getFullStack oe = getFullStackSpec oe := by
  match oe with
  | none => rfl
  | some e =>
      show OError.getFullStackE e = getFullStackSpecE e
      induction e with
      | noCause core =>
          show OError.tagStackPart (OError.stackOrPlaceholder core.stack) core.tags =
            specStackBase core
          exact tagStackPart_eq _ _
      | withCauseC core cc ih =>
          simp only [OError.getFullStackE, getFullStackSpecE, specStackBase]
          rw [if_neg (getFullStackE_ne_empty cc), tagStackPart_eq, ih]

/-- A heap record for an error object in the address-based model, needed to
express cyclic `cause` chains (which JS mutation can create and which the
tree-shaped `JsErr` type cannot represent).  `cause` holds the heap address
of the cause error, if any. -/
structure ErrRec where
  info : Option JsVal
  stack : Option String
  tags : Option (List Tag)
  cause : Option Nat
deriving DecidableEq, Repr

/-- `OError.getFullInfo` over the heap model, instrumented with recursion
fuel: a `none` result means the computation did not finish within the given
recursion depth (divergence is `none` at every fuel).  The heap is returned
unchanged alongside the result, mirroring that the source body only writes
into the freshly allocated result object (`var info = {}`), never into the
error or its cause chain.  A dangling address behaves as an absent error. -/
def getFullInfoRun (h : List ErrRec) : Nat → Option Nat → Option InfoMap × List ErrRec
  | _, none => (some [], h)
  | fuel, some i =>
    match h[i]? with
    | none => (some [], h)
    | some r =>
      let fromCause : Option InfoMap :=
        match r.cause with
        | none => some []
        | some j =>
          match fuel with
          | 0 => none
          | fuel' + 1 => (getFullInfoRun h fuel' (some j)).1
      match fromCause with
      | none => (none, h)
      | some ci =>
          (some (OError.mergeTagInfos
            (OError.mergeOwnInfo (objAssignObj [] ci) r.info) r.tags), h)

/-- `OError.getFullStack` over the heap model with recursion fuel, heap
returned unchanged (the source only builds up a local string). -/
def getFullStackRun (h : List ErrRec) : Nat → Option Nat → Option String × List ErrRec
  | _, none => (some "", h)
  | fuel, some i =>
    match h[i]? with
    | none => (some "", h)
    | some r =>
      let base := OError.tagStackPart (OError.stackOrPlaceholder r.stack) r.tags
      match r.cause with
      | none => (some base, h)
      | some j =>
        match fuel with
        | 0 => (none, h)
        | fuel' + 1 =>
          match (getFullStackRun h fuel' (some j)).1 with
          | none => (none, h)
          | some cs =>
              (some (if cs = "" then base
                else base ++ "\ncaused by:\n" ++ OError.indent cs), h)

/-- The cause chain starting at address `i` is finite and acyclic along its
path: it dangles, stops at a record with no cause, or steps to a cause whose
own chain terminates. -/
inductive Terminating (h : List ErrRec) : Nat → Prop where
  | dangling (i : Nat) : h[i]? = none → Terminating h i
  | stop (i : Nat) (r : ErrRec) : h[i]? = some r → r.cause = none → Terminating h i
  | step (i : Nat) (r : ErrRec) (j : Nat) :
      h[i]? = some r → r.cause = some j → Terminating h j → Terminating h i

/-- The self-caused error heap: address 0 is its own cause. -/
def cyclicHeap : List ErrRec := [⟨none, none, none, some 0⟩]

theorem getFullInfoRun_cyclic_succ (f : Nat)
    (hf : (getFullInfoRun cyclicHeap f (some 0)).1 = none) :
    (getFullInfoRun cyclicHeap (f + 1) (some 0)).1 = none := by
  have hunf : getFullInfoRun cyclicHeap (f + 1) (some 0) =
      (match (getFullInfoRun cyclicHeap f (some 0)).1 with
        | none => (none, cyclicHeap)
        | some ci => (some (OError.mergeTagInfos
            (OError.mergeOwnInfo (objAssignObj [] ci) none) none), cyclicHeap)) := rfl
  rw [hunf, hf]

theorem getFullStackRun_cyclic_succ (f : Nat)
    (hf : (getFullStackRun cyclicHeap f (some 0)).1 = none) :
    (getFullStackRun cyclicHeap (f + 1) (some 0)).1 = none := by
  have hunf : getFullStackRun cyclicHeap (f + 1) (some 0) =
      (match (getFullStackRun cyclicHeap f (some 0)).1 with
        | none => (none, cyclicHeap)
        | some cs =>
            (some (if cs = "" then
                OError.tagStackPart (OError.stackOrPlaceholder none) none
              else OError.tagStackPart (OError.stackOrPlaceholder none) none ++
                "\ncaused by:\n" ++ OError.indent cs), cyclicHeap)) := rfl
  rw [hunf, hf]

/-- Claim C8: on every error whose cause chain is finite and acyclic, both
aggregation queries terminate (some finite recursion depth suffices), and —
since the source has no cycle guard — there is a heap with a cyclic cause
chain (a self-caused error) on which neither query terminates at any
recursion depth. -/
theorem claimC8 :
    (∀ (h : List ErrRec) (i : Nat), Terminating h i →
      (∃ fuel, ((getFullInfoRun h fuel (some i)).1).isSome) ∧
      (∃ fuel, ((getFullStackRun h fuel (some i)).1).isSome)) ∧
    (∃ (h : List ErrRec) (i : Nat), ∀ fuel,
      (getFullInfoRun h fuel (some i)).1 = none ∧
      (getFullStackRun h fuel (some i)).1 = none) := by
  constructor
  · intro h i hterm
    induction hterm with
    | dangling i hi =>
        refine ⟨⟨0, ?_⟩, ⟨0, ?_⟩⟩
        · rw [getFullInfoRun.eq_2, hi]
          rfl
        · rw [getFullStackRun.eq_2, hi]
          rfl
    | stop i r hi hc =>
        refine ⟨⟨0, ?_⟩, ⟨0, ?_⟩⟩
        · rw [getFullInfoRun.eq_2, hi]
          simp only [hc]
          rfl
        · rw [getFullStackRun.eq_2, hi]
          simp only [hc]
          rfl
    | step i r j hi hc _ ih =>
        obtain ⟨⟨f1, h1⟩, ⟨f2, h2⟩⟩ := ih
        refine ⟨⟨f1 + 1, ?_⟩, ⟨f2 + 1, ?_⟩⟩
        · obtain ⟨ci, hci⟩ := Option.isSome_iff_exists.mp h1
          rw [getFullInfoRun.eq_2, hi]
          simp only [hc, hci]
          rfl
        · obtain ⟨cs, hcs⟩ := Option.isSome_iff_exists.mp h2
          rw [getFullStackRun.eq_2, hi]
          simp only [hc, hcs]
          split <;> simp
  · refine ⟨cyclicHeap, 0, ?_⟩
    intro fuel
    induction fuel with
    | zero => exact ⟨by decide, by decide⟩
    | succ f ih =>
        exact ⟨getFullInfoRun_cyclic_succ f ih.1, getFullStackRun_cyclic_succ f ih.2⟩

/-- Witness heap for claim C8: a single error with no cause. -/
def witnessHeapC8 : List ErrRec := [⟨none, some "s", none, none⟩]

/-- Witness for claim C8: the termination half applied to a concrete acyclic
heap. -/
theorem claimC8_witness :
    (∃ fuel, ((getFullInfoRun witnessHeapC8 fuel (some 0)).1).isSome) ∧
    (∃ fuel, ((getFullStackRun witnessHeapC8 fuel (some 0)).1).isSome) :=
  claimC8.1 witnessHeapC8 0
    (Terminating.stop 0 ⟨none, some "s", none, none⟩ rfl rfl)

/-- Claim C9: the aggregation queries are pure read-side computations — in
the heap model they leave the heap (the error, its info, its tags, and every
error in its cause chain) unchanged, and hence a second call on the heap
resulting from a first call returns the same result as the first call. -/
theorem claimC9 (h : List ErrRec) (fuel : Nat) (i : Option Nat) :
    (getFullInfoRun h fuel i).2 = h ∧
    (getFullStackRun h fuel i).2 = h ∧
    (getFullInfoRun (getFullInfoRun h fuel i).2 fuel i).1 = (getFullInfoRun h fuel i).1 ∧
    (getFullStackRun (getFullStackRun h fuel i).2 fuel i).1 = (getFullStackRun h fuel i).1 := by
  have hinfo : ∀ (f : Nat) (oi : Option Nat), (getFullInfoRun h f oi).2 = h := by
    intro f oi
    rcases oi with _ | i
    · rw [getFullInfoRun.eq_1]
    · rw [getFullInfoRun.eq_2]
      cases hr : h[i]? with
      | none => rfl
      | some r =>
          cases hc : r.cause with
          | none => simp only [hc]
          | some j =>
              cases f with
              | zero => simp only [hc]
              | succ f' =>
                  simp only [hc]
                  cases hrec : (getFullInfoRun h f' (some j)).1 with
                  | none => simp only [hrec]
                  | some ci => simp only [hrec]
  have hstack : ∀ (f : Nat) (oi : Option Nat), (getFullStackRun h f oi).2 = h := by
    intro f oi
    rcases oi with _ | i
    · rw [getFullStackRun.eq_1]
    · rw [getFullStackRun.eq_2]
      cases hr : h[i]? with
      | none => rfl
      | some r =>
          cases hc : r.cause with
          | none => simp only [hc]
          | some j =>
              cases f with
              | zero => simp only [hc]
              | succ f' =>
                  simp only [hc]
                  cases hrec : (getFullStackRun h f' (some j)).1 with
                  | none => simp only [hrec]
                  | some cs => simp only [hrec]
  refine ⟨hinfo fuel i, hstack fuel i, ?_, ?_⟩
  · rw [hinfo fuel i]
  · rw [hstack fuel i]
